import Mathlib

/-
Verification of the kick-bot connection orchestrator.

This file gives a shallow embedding, in Lean, of the parts of the Go
repository that the specification's testable claims are about:

* the `dashboard` package's statistics aggregator
  (`Dashboard.UpdateConnection`, `Dashboard.recalculateStats`,
  `Dashboard.GetStats`);
* the per-session state machine
  (`ConnectionHandler.Start`, `ConnectionHandler.StartWithDashboard`,
  `ConnectionHandler.messageLoop`, `ConnectionHandler.messageLoopWithDashboard`
  and the `startConnection` wrapper in `cmd/kick-bot/main.go`);
* the batched ramp-up scheduler (`startConnectionsInBatches`).

Timestamps (`time.Now()`) are modelled as natural numbers that the caller
passes in; the Go zero `time.Time` is modelled as the timestamp `0`.
`float64` statistics are modelled over `ℚ`.  Context cancellation is
modelled by boolean oracles saying which cancellation checkpoints observe
a fired signal, and the random dial/send outcomes by boolean oracles.
Go's unbounded `for` loops are modelled with explicit fuel; running out of
fuel is the distinguished outcome `ExitErr.running` ("still in the loop").
-/

namespace KickBot

/-! ## The dashboard aggregator (Go package `dashboard`) -/

/-- `ConnectionStatus` from the dashboard package.  The Go enum has exactly
these four values; there is no `Cancelled` status in the code. -/
inductive ConnectionStatus
  | StatusConnecting
  | StatusConnected
  | StatusRetrying
  | StatusFailed
  deriving DecidableEq

open ConnectionStatus

/-- `ConnectionInfo` from the dashboard package.  `ConnectedAt` is a
timestamp, with `0` standing for Go's zero `time.Time`. -/
structure ConnectionInfo where
  Index : Nat
  Status : ConnectionStatus
  Attempts : Nat
  LastError : String
  ConnectedAt : Nat
  deriving DecidableEq

/-- The mutable fields of `ConnectionStats` (the mutex is a side condition
of the Go code, not data).  The `connections` map is modelled as an
association list with distinct keys; `SuccessRate` (a `float64` in Go)
is modelled over `ℚ`. -/
structure ConnectionStats where
  Total : Nat
  Connecting : Nat
  Connected : Nat
  Retrying : Nat
  Failed : Nat
  TotalAttempts : Nat
  SuccessRate : ℚ
  LastUpdate : Nat
  connections : List (Nat × ConnectionInfo)
  deriving DecidableEq

/-- Go map assignment `m[k] = v`: replace the binding if the key is
present, otherwise add it. -/
def upsert : List (Nat × ConnectionInfo) → Nat → ConnectionInfo → List (Nat × ConnectionInfo)
  | [], k, v => [(k, v)]
  | (k', v') :: rest, k, v =>
      if k' = k then (k, v) :: rest else (k', v') :: upsert rest k v

/-- Go map read `m[k]` (the `(value, ok)` form). -/
def lookup : List (Nat × ConnectionInfo) → Nat → Option ConnectionInfo
  | [], _ => none
  | (k', v') :: rest, k => if k' = k then some v' else lookup rest k

/-- `NewDashboard(totalConnections, ...)`: all counters start at Go zero
values and the connections map starts empty. -/
def NewConnectionStats (total : Nat) : ConnectionStats :=
  { Total := total
    Connecting := 0
    Connected := 0
    Retrying := 0
    Failed := 0
    TotalAttempts := 0
    SuccessRate := 0
    LastUpdate := 0
    connections := [] }

/-- `Dashboard.recalculateStats`: recompute the four per-status counters
and `TotalAttempts` in full from the connections map; recompute
`SuccessRate` as `Connected / Total * 100` only when `TotalAttempts > 0`
(otherwise the previously stored value is kept); stamp `LastUpdate`. -/
def recalculateStats (st : ConnectionStats) (now : Nat) : ConnectionStats :=
  let conns := st.connections
  let connecting := (conns.filter (fun p => p.2.Status = StatusConnecting)).length
  let connected := (conns.filter (fun p => p.2.Status = StatusConnected)).length
  let retrying := (conns.filter (fun p => p.2.Status = StatusRetrying)).length
  let failed := (conns.filter (fun p => p.2.Status = StatusFailed)).length
  let totalAttempts := (conns.map (fun p => p.2.Attempts)).sum
  let successRate : ℚ :=
    if 0 < totalAttempts then (connected : ℚ) / (st.Total : ℚ) * 100 else st.SuccessRate
  { st with
    Connecting := connecting
    Connected := connected
    Retrying := retrying
    Failed := failed
    TotalAttempts := totalAttempts
    SuccessRate := successRate
    LastUpdate := now }

/-- `Dashboard.UpdateConnection(index, status, attempts, lastError)`:
build the new `ConnectionInfo`, setting `ConnectedAt` to the current time
when the status is `Connected` and the previous status (if any) was not
`Connected`, otherwise inheriting the previous `ConnectedAt` (zero if the
session was never seen); store it and recalculate the aggregates. -/
def UpdateConnection (st : ConnectionStats) (index : Nat) (status : ConnectionStatus)
    (attempts : Nat) (lastError : String) (now : Nat) : ConnectionStats :=
  let prev := lookup st.connections index
  let connectedAt :=
    if status = StatusConnected ∧ (∀ p ∈ prev, p.Status ≠ StatusConnected) then now
    else
      match prev with
      | some p => p.ConnectedAt
      | none => 0
  let info : ConnectionInfo :=
    { Index := index, Status := status, Attempts := attempts
      LastError := lastError, ConnectedAt := connectedAt }
  recalculateStats { st with connections := upsert st.connections index info } now

/-- `StatsSnapshot`: the read-only copy produced by `Dashboard.GetStats`. -/
structure StatsSnapshot where
  Total : Nat
  Connecting : Nat
  Connected : Nat
  Retrying : Nat
  Failed : Nat
  TotalAttempts : Nat
  SuccessRate : ℚ
  LastUpdate : Nat
  Connections : List (Nat × ConnectionInfo)
  deriving DecidableEq

/-- `Dashboard.GetStats`: copy every field into a snapshot. -/
def GetStats (st : ConnectionStats) : StatsSnapshot :=
  { Total := st.Total
    Connecting := st.Connecting
    Connected := st.Connected
    Retrying := st.Retrying
    Failed := st.Failed
    TotalAttempts := st.TotalAttempts
    SuccessRate := st.SuccessRate
    LastUpdate := st.LastUpdate
    Connections := st.connections }

/-- One `UpdateConnection` call as recorded data: the arguments of the
call together with the `time.Now()` value observed during it. -/
structure Report where
  index : Nat
  status : ConnectionStatus
  attempts : Nat
  lastError : String
  now : Nat
  deriving DecidableEq

/-- Apply a sequence of `UpdateConnection` calls in order.  Concurrent
callers are serialised by the mutex in the Go code, so any interleaving
is some such sequence. -/
def applyReports (st : ConnectionStats) : List Report → ConnectionStats
  | [] => st
  | r :: rs => applyReports (UpdateConnection st r.index r.status r.attempts r.lastError r.now) rs

/-! ### Helper lemmas about the aggregator -/

theorem lookup_upsert_self (l : List (Nat × ConnectionInfo)) (k : Nat) (v : ConnectionInfo) :
    lookup (upsert l k v) k = some v := by
  induction l with
  | nil => simp [upsert, lookup]
  | cons hd tl ih =>
      by_cases h : hd.1 = k
      · simp [upsert, lookup, h]
      · simp [upsert, lookup, h, ih]

theorem connections_update (st : ConnectionStats) (index : Nat) (status : ConnectionStatus)
    (attempts : Nat) (lastError : String) (now : Nat) :
    (UpdateConnection st index status attempts lastError now).connections =
      upsert st.connections index
        { Index := index, Status := status, Attempts := attempts
          LastError := lastError
          ConnectedAt :=
            if status = StatusConnected ∧
                (∀ p ∈ lookup st.connections index, p.Status ≠ StatusConnected) then now
            else
              match lookup st.connections index with
              | some p => p.ConnectedAt
              | none => 0 } := by
  simp only [UpdateConnection, recalculateStats]

/-- Claim C1, counterexample.  After the report sequence
`Connected@10, Retrying@20, Connected@30` for session 0, the stored
`ConnectedAt` is `30`, not the first-connect time `10`: the second
`Connected` report overwrote it. -/
theorem connectedAt_not_write_once :
    (lookup (applyReports (NewConnectionStats 1)
        [⟨0, StatusConnected, 1, "", 10⟩]).connections 0).map ConnectionInfo.ConnectedAt
      = some 10 ∧
    (lookup (applyReports (NewConnectionStats 1)
        [⟨0, StatusConnected, 1, "", 10⟩,
         ⟨0, StatusRetrying, 2, "dial failed", 20⟩]).connections 0).map
        ConnectionInfo.ConnectedAt = some 10 ∧
    (lookup (applyReports (NewConnectionStats 1)
        [⟨0, StatusConnected, 1, "", 10⟩,
         ⟨0, StatusRetrying, 2, "dial failed", 20⟩,
         ⟨0, StatusConnected, 3, "", 30⟩]).connections 0).map
        ConnectionInfo.ConnectedAt = some 30 := by
  refine ⟨?_, ?_, ?_⟩ <;> decide

/-- Claim C1, amended.  One `UpdateConnection` call sets the stored
`ConnectedAt` to the current time exactly when the new status is
`Connected` and the previous status (if the session was seen before) was
not `Connected`; a report that keeps the session `Connected`, or any
report with a non-`Connected` status, preserves the previously stored
value (zero if the session had never reported). -/
theorem connectedAt_update_rule (st : ConnectionStats) (index : Nat)
    (status : ConnectionStatus) (attempts : Nat) (lastError : String) (now : Nat) :
    (lookup (UpdateConnection st index status attempts lastError now).connections index).map
        ConnectionInfo.ConnectedAt =
      some (match lookup st.connections index with
        | some p =>
            if status = StatusConnected ∧ p.Status ≠ StatusConnected then now
            else p.ConnectedAt
        | none => if status = StatusConnected then now else 0) := by
  rw [connections_update, lookup_upsert_self]
  cases hprev : lookup st.connections index with
  | none =>
      by_cases hs : status = StatusConnected <;>
        simp [hprev, hs]
  | some p =>
      by_cases hs : status = StatusConnected
      · by_cases hp : p.Status = StatusConnected <;>
          simp [hprev, hs, hp]
      · simp [hprev, hs]

/-- The aggregator state reached from a fresh dashboard after a sequence
of `UpdateConnection` calls. -/
def finalStats (total : Nat) (tr : List Report) : ConnectionStats :=
  applyReports (NewConnectionStats total) tr

theorem Total_update (st : ConnectionStats) (index : Nat) (status : ConnectionStatus)
    (attempts : Nat) (lastError : String) (now : Nat) :
    (UpdateConnection st index status attempts lastError now).Total = st.Total := by
  simp [UpdateConnection, recalculateStats]

theorem Total_applyReports (st : ConnectionStats) (tr : List Report) :
    (applyReports st tr).Total = st.Total := by
  induction tr generalizing st with
  | nil => rfl
  | cons r rs ih => rw [applyReports, ih, Total_update]

theorem attempts_le_sum_upsert (l : List (Nat × ConnectionInfo)) (k : Nat)
    (v : ConnectionInfo) (a : Nat) (hv : v.Attempts = a) :
    a ≤ ((upsert l k v).map (fun p => p.2.Attempts)).sum := by
  subst hv
  induction l with
  | nil => simp [upsert]
  | cons hd tl ih =>
      by_cases h : hd.1 = k
      · simp [upsert, h]
      · simp only [upsert, h, if_false, List.map_cons, List.sum_cons]
        exact le_trans ih (Nat.le_add_left _ _)

theorem update_successRate (st : ConnectionStats) (index : Nat)
    (status : ConnectionStatus) (attempts : Nat) (lastError : String) (now : Nat)
    (h : 1 ≤ attempts) :
    (UpdateConnection st index status attempts lastError now).SuccessRate
      = ((UpdateConnection st index status attempts lastError now).Connected : ℚ)
        / (st.Total : ℚ) * 100 := by
  simp only [UpdateConnection, recalculateStats]
  rw [if_pos]
  exact lt_of_lt_of_le h (attempts_le_sum_upsert st.connections index _ attempts rfl)

/-- Claim C2.  Starting from a fresh dashboard with target `total ≥ 1`,
after any sequence of `UpdateConnection` calls each carrying at least one
attempt (as every call site in the program does), the snapshot satisfies
`SuccessRate = 100 * Connected / total`, and the rate is `0` while no
attempt has been recorded. -/
theorem successRate_invariant (total : Nat) (tr : List Report)
    (_htotal : 1 ≤ total) (hatt : ∀ r ∈ tr, 1 ≤ r.attempts) :
    (GetStats (finalStats total tr)).SuccessRate
      = 100 * ((GetStats (finalStats total tr)).Connected : ℚ) / (total : ℚ)
    ∧ (tr = [] → (GetStats (finalStats total tr)).SuccessRate = 0) := by
  constructor
  · have main : ∀ (l : List Report) (st : ConnectionStats),
        (∀ r ∈ l, 1 ≤ r.attempts) → st.Total = total →
        st.SuccessRate = 100 * (st.Connected : ℚ) / (total : ℚ) →
        (applyReports st l).SuccessRate
          = 100 * ((applyReports st l).Connected : ℚ) / (total : ℚ) := by
      intro l
      induction l with
      | nil => intro st _ _ hinv; exact hinv
      | cons r rs ih =>
          intro st hl htot hinv
          rw [applyReports]
          refine ih _ (fun x hx => hl x (List.mem_cons_of_mem r hx)) ?_ ?_
          · rw [Total_update, htot]
          · rw [update_successRate st r.index r.status r.attempts r.lastError r.now
                (hl r (List.mem_cons_self r rs)), htot]
            ring
    exact main tr (NewConnectionStats total) hatt rfl (by simp [NewConnectionStats])
  · intro h
    subst h
    rfl

theorem successRate_invariant_witness :
    (GetStats (finalStats 2 [⟨0, StatusConnected, 1, "", 5⟩])).SuccessRate
      = 100 * ((GetStats (finalStats 2 [⟨0, StatusConnected, 1, "", 5⟩])).Connected : ℚ)
        / ((2 : Nat) : ℚ)
    ∧ (([⟨0, StatusConnected, 1, "", 5⟩] : List Report) = [] →
        (GetStats (finalStats 2 [⟨0, StatusConnected, 1, "", 5⟩])).SuccessRate = 0) :=
  successRate_invariant 2 [⟨0, StatusConnected, 1, "", 5⟩] (by decide) (by decide)

theorem keys_upsert (l : List (Nat × ConnectionInfo)) (k : Nat) (v : ConnectionInfo) :
    (upsert l k v).map Prod.fst =
      if k ∈ l.map Prod.fst then l.map Prod.fst else l.map Prod.fst ++ [k] := by
  induction l with
  | nil => simp [upsert]
  | cons hd tl ih =>
      by_cases h : hd.1 = k
      · simp [upsert, h]
      · have hne : ¬ k = hd.1 := fun hk => h hk.symm
        by_cases hm : k ∈ tl.map Prod.fst <;>
          simp [upsert, h, ih, hm, hne]

theorem mem_keys_upsert (l : List (Nat × ConnectionInfo)) (k j : Nat) (v : ConnectionInfo) :
    j ∈ (upsert l k v).map Prod.fst ↔ j = k ∨ j ∈ l.map Prod.fst := by
  rw [keys_upsert]
  by_cases hm : k ∈ l.map Prod.fst
  · simp only [hm, if_true]
    constructor
    · exact Or.inr
    · rintro (rfl | hj)
      · exact hm
      · exact hj
  · simp only [hm, if_false, List.mem_append, List.mem_singleton]
    tauto

theorem keys_nodup_upsert (l : List (Nat × ConnectionInfo)) (k : Nat) (v : ConnectionInfo)
    (h : (l.map Prod.fst).Nodup) : ((upsert l k v).map Prod.fst).Nodup := by
  rw [keys_upsert]
  by_cases hm : k ∈ l.map Prod.fst
  · simpa [hm] using h
  · simp only [hm, if_false]
    rw [List.nodup_append]
    refine ⟨h, List.nodup_singleton k, ?_⟩
    intro a ha hb
    rw [List.mem_singleton] at hb
    subst hb
    exact hm ha

theorem keys_nodup_applyReports (st : ConnectionStats) (tr : List Report)
    (h : (st.connections.map Prod.fst).Nodup) :
    ((applyReports st tr).connections.map Prod.fst).Nodup := by
  induction tr generalizing st with
  | nil => exact h
  | cons r rs ih =>
      rw [applyReports]
      refine ih _ ?_
      rw [connections_update]
      exact keys_nodup_upsert _ _ _ h

theorem mem_keys_applyReports (st : ConnectionStats) (tr : List Report) (j : Nat)
    (h : j ∈ (applyReports st tr).connections.map Prod.fst) :
    j ∈ st.connections.map Prod.fst ∨ ∃ r ∈ tr, r.index = j := by
  induction tr generalizing st with
  | nil => exact Or.inl h
  | cons r rs ih =>
      rw [applyReports] at h
      rcases ih _ h with hm | ⟨r', hr', hi⟩
      · rw [connections_update, mem_keys_upsert] at hm
        rcases hm with rfl | hm
        · exact Or.inr ⟨r, List.mem_cons_self r rs, rfl⟩
        · exact Or.inl hm
      · exact Or.inr ⟨r', List.mem_cons_of_mem r hr', hi⟩

theorem keys_mono_applyReports (st : ConnectionStats) (tr : List Report) (j : Nat)
    (h : j ∈ st.connections.map Prod.fst) :
    j ∈ (applyReports st tr).connections.map Prod.fst := by
  induction tr generalizing st with
  | nil => exact h
  | cons r rs ih =>
      rw [applyReports]
      refine ih _ ?_
      rw [connections_update, mem_keys_upsert]
      exact Or.inr h

theorem reported_mem_keys (st : ConnectionStats) (tr : List Report) (r : Report)
    (h : r ∈ tr) : r.index ∈ (applyReports st tr).connections.map Prod.fst := by
  induction tr generalizing st with
  | nil => cases h
  | cons r' rs ih =>
      rw [applyReports]
      rcases List.mem_cons.mp h with rfl | h
      · refine keys_mono_applyReports _ _ _ ?_
        rw [connections_update, mem_keys_upsert]
        exact Or.inl rfl
      · exact ih _ h

theorem four_filter_lengths (l : List (Nat × ConnectionInfo)) :
    (l.filter (fun p => p.2.Status = StatusConnecting)).length
      + (l.filter (fun p => p.2.Status = StatusConnected)).length
      + (l.filter (fun p => p.2.Status = StatusRetrying)).length
      + (l.filter (fun p => p.2.Status = StatusFailed)).length = l.length := by
  induction l with
  | nil => rfl
  | cons hd tl ih =>
      cases h : hd.2.Status <;>
        simp [List.filter_cons, h] <;> omega

theorem sumCounts_update (st : ConnectionStats) (index : Nat) (status : ConnectionStatus)
    (attempts : Nat) (lastError : String) (now : Nat) :
    (UpdateConnection st index status attempts lastError now).Connecting
      + (UpdateConnection st index status attempts lastError now).Connected
      + (UpdateConnection st index status attempts lastError now).Retrying
      + (UpdateConnection st index status attempts lastError now).Failed
      = (UpdateConnection st index status attempts lastError now).connections.length := by
  simp only [UpdateConnection, recalculateStats]
  exact four_filter_lengths _

theorem sumCounts_applyReports (st : ConnectionStats) (tr : List Report)
    (h : st.Connecting + st.Connected + st.Retrying + st.Failed = st.connections.length) :
    (applyReports st tr).Connecting + (applyReports st tr).Connected
      + (applyReports st tr).Retrying + (applyReports st tr).Failed
      = (applyReports st tr).connections.length := by
  induction tr generalizing st with
  | nil => exact h
  | cons r rs ih =>
      rw [applyReports]
      exact ih _ (sumCounts_update st r.index r.status r.attempts r.lastError r.now)

/-- Claim C3.  If every report carries a session index below `total` (the
program launches exactly `total` tasks with indices `0..total-1`), then in
the reached aggregator state
`Connected + Failed + Retrying + Connecting ≤ total`, with equality once
every index below `total` has reported at least once.  The Go
`ConnectionStatus` enum has no `Cancelled` value, so the claim's
`perStatusCount[Cancelled]` term is identically zero and is omitted. -/
theorem status_counts_bounded (total : Nat) (tr : List Report)
    (hidx : ∀ r ∈ tr, r.index < total) :
    (finalStats total tr).Connected + (finalStats total tr).Failed
        + (finalStats total tr).Retrying + (finalStats total tr).Connecting ≤ total
    ∧ ((∀ i, i < total → ∃ r ∈ tr, r.index = i) →
        (finalStats total tr).Connected + (finalStats total tr).Failed
          + (finalStats total tr).Retrying + (finalStats total tr).Connecting = total) := by
  simp only [finalStats]
  have hsum := sumCounts_applyReports (NewConnectionStats total) tr (by rfl)
  have hnodup := keys_nodup_applyReports (NewConnectionStats total) tr (by simp [NewConnectionStats])
  have hsub : (applyReports (NewConnectionStats total) tr).connections.map Prod.fst
      ⊆ List.range total := by
    intro j hj
    rcases mem_keys_applyReports _ _ _ hj with hm | ⟨r, hr, hi⟩
    · simp [NewConnectionStats] at hm
    · rw [List.mem_range]
      exact hi ▸ hidx r hr
  have hlen : (applyReports (NewConnectionStats total) tr).connections.length
      = ((applyReports (NewConnectionStats total) tr).connections.map Prod.fst).length := by
    rw [List.length_map]
  constructor
  · have hle : ((applyReports (NewConnectionStats total) tr).connections.map Prod.fst).length
        ≤ (List.range total).length :=
      (hnodup.subperm hsub).length_le
    rw [List.length_range] at hle
    omega
  · intro hall
    have hsup : List.range total
        ⊆ (applyReports (NewConnectionStats total) tr).connections.map Prod.fst := by
      intro i hi
      rw [List.mem_range] at hi
      rcases hall i hi with ⟨r, hr, hri⟩
      exact hri ▸ reported_mem_keys _ _ _ hr
    have h2 : (List.range total).length
        ≤ ((applyReports (NewConnectionStats total) tr).connections.map Prod.fst).length :=
      ((List.nodup_range total).subperm hsup).length_le
    have hle : ((applyReports (NewConnectionStats total) tr).connections.map Prod.fst).length
        ≤ (List.range total).length := (hnodup.subperm hsub).length_le
    rw [List.length_range] at h2 hle
    omega

theorem status_counts_bounded_witness :
    ((finalStats 1 [⟨0, StatusConnected, 1, "", 0⟩]).Connected
        + (finalStats 1 [⟨0, StatusConnected, 1, "", 0⟩]).Failed
        + (finalStats 1 [⟨0, StatusConnected, 1, "", 0⟩]).Retrying
        + (finalStats 1 [⟨0, StatusConnected, 1, "", 0⟩]).Connecting ≤ 1)
    ∧ ((∀ i, i < 1 → ∃ r ∈ [(⟨0, StatusConnected, 1, "", 0⟩ : Report)], r.index = i) →
        (finalStats 1 [⟨0, StatusConnected, 1, "", 0⟩]).Connected
          + (finalStats 1 [⟨0, StatusConnected, 1, "", 0⟩]).Failed
          + (finalStats 1 [⟨0, StatusConnected, 1, "", 0⟩]).Retrying
          + (finalStats 1 [⟨0, StatusConnected, 1, "", 0⟩]).Connecting = 1) :=
  status_counts_bounded 1 [⟨0, StatusConnected, 1, "", 0⟩] (by decide)

/-! ## The per-session task (Go package `kick` and `cmd/kick-bot/main.go`)

A session run is driven by a `Script`: boolean oracles saying which dial
attempts succeed, which sends succeed, and which cancellation checkpoints
observe the fired signal.  The keepalive loop, unbounded in Go, takes
explicit fuel; exhausted fuel is the outcome `ExitErr.running` ("the loop
is still going", in which case the code after the loop has not run). -/

/-- The `error` results a session run can end with.  `canceled` is Go's
`context.Canceled` as returned by `ctx.Err()`; `exhausted` is the
`"failed to establish connection after 5 attempts"` error; `tokenFailed`
is a `kickService.GetToken` failure in `startConnection`. -/
inductive ExitErr
  | canceled
  | sendFailed
  | exhausted
  | tokenFailed
  | running
  deriving DecidableEq

/-- One dashboard report made by a session: the `status` and `attempts`
arguments of the `UpdateConnection` call.  The session index is fixed per
task and the error string is irrelevant to every claim, so both are
omitted here. -/
structure Rep where
  status : ConnectionStatus
  attempts : Nat
  deriving DecidableEq

/-- The two websocket message kinds built by the keepalive loop. -/
inductive Msg
  | ping
  | handshake (channelID : Nat)
  deriving DecidableEq

/-- The environment of one session run.  All oracle arguments are
1-based, matching the Go loop counters (`attempt`, `counter`). -/
structure Script where
  dialOk : Nat → Bool
  cancelInRetry : Nat → Bool
  cancelBeforeSend : Nat → Bool
  sendOk : Nat → Bool
  cancelInKeepalive : Nat → Bool

/-- Result of a keepalive loop run: dashboard reports made, messages
written to the websocket, and the exit error. -/
structure LoopOut where
  reports : List Rep
  msgs : List Msg
  err : ExitErr
  deriving DecidableEq

/-- The message built in iteration `counter` of the keepalive loop:
`ping` when `counter` is even, `channel_handshake` carrying the channel
identifier when `counter` is odd (the Go code tests `counter%2 == 0`
after incrementing). -/
def mkMessage (channelID counter : Nat) : Msg :=
  if counter % 2 = 0 then Msg.ping else Msg.handshake channelID

/-- `ConnectionHandler.messageLoop`: per iteration, check cancellation at
the loop top, increment the counter, build the message, send it (a failed
send exits with an error), then wait interruptibly.  The verbose-logging
variant makes no dashboard reports. -/
def messageLoop (channelID : Nat) (sc : Script) : Nat → Nat → LoopOut
  | _, 0 => ⟨[], [], .running⟩
  | counter, fuel+1 =>
      if sc.cancelBeforeSend (counter+1) then ⟨[], [], .canceled⟩
      else
        let m := mkMessage channelID (counter+1)
        if sc.sendOk (counter+1) then
          if sc.cancelInKeepalive (counter+1) then ⟨[], [m], .canceled⟩
          else
            let rest := messageLoop channelID sc (counter+1) fuel
            ⟨rest.reports, m :: rest.msgs, rest.err⟩
        else ⟨[], [m], .sendFailed⟩

/-- `ConnectionHandler.messageLoopWithDashboard`: same cycle, but a failed
send first reports `StatusFailed` with the literal attempts value `1` to
the dashboard. -/
def messageLoopWithDashboard (channelID : Nat) (sc : Script) : Nat → Nat → LoopOut
  | _, 0 => ⟨[], [], .running⟩
  | counter, fuel+1 =>
      if sc.cancelBeforeSend (counter+1) then ⟨[], [], .canceled⟩
      else
        let m := mkMessage channelID (counter+1)
        if sc.sendOk (counter+1) then
          if sc.cancelInKeepalive (counter+1) then ⟨[], [m], .canceled⟩
          else
            let rest := messageLoopWithDashboard channelID sc (counter+1) fuel
            ⟨rest.reports, m :: rest.msgs, rest.err⟩
        else ⟨[⟨StatusFailed, 1⟩], [m], .sendFailed⟩

/-- Result of a `Start`/`StartWithDashboard`/`startConnection` run, with
the number of `connect()` (dial) calls made. -/
structure RunOut where
  reports : List Rep
  msgs : List Msg
  dials : Nat
  err : ExitErr
  deriving DecidableEq

/-- The retry loop of `ConnectionHandler.Start` (`maxRetries = 5`, no
dashboard): `attempt` is the Go loop variable, `rem` the remaining
iterations; falling out of the loop returns the exhaustion error. -/
def startGo (channelID : Nat) (sc : Script) (msgFuel : Nat) : Nat → Nat → RunOut
  | _, 0 => ⟨[], [], 0, .exhausted⟩
  | attempt, rem+1 =>
      if sc.dialOk attempt then
        let lo := messageLoop channelID sc 0 msgFuel
        ⟨[], lo.msgs, 1, lo.err⟩
      else
        if sc.cancelInRetry attempt then ⟨[], [], 1, .canceled⟩
        else
          let rest := startGo channelID sc msgFuel (attempt+1) rem
          ⟨[], rest.msgs, rest.dials + 1, rest.err⟩

/-- `ConnectionHandler.Start(ctx)`. -/
def Start (channelID : Nat) (sc : Script) (msgFuel : Nat) : RunOut :=
  startGo channelID sc msgFuel 1 5

/-- The retry loop of `ConnectionHandler.StartWithDashboard`: report
`StatusConnecting attempt` before each dial; on dial failure report
`StatusRetrying attempt` and wait interruptibly; on dial success report
`StatusConnected attempt` and enter the keepalive loop. -/
def startWithDashboardGo (channelID : Nat) (sc : Script) (msgFuel : Nat) :
    Nat → Nat → RunOut
  | _, 0 => ⟨[], [], 0, .exhausted⟩
  | attempt, rem+1 =>
      if sc.dialOk attempt then
        let lo := messageLoopWithDashboard channelID sc 0 msgFuel
        ⟨⟨StatusConnecting, attempt⟩ :: ⟨StatusConnected, attempt⟩ :: lo.reports,
          lo.msgs, 1, lo.err⟩
      else
        if sc.cancelInRetry attempt then
          ⟨[⟨StatusConnecting, attempt⟩, ⟨StatusRetrying, attempt⟩], [], 1, .canceled⟩
        else
          let rest := startWithDashboardGo channelID sc msgFuel (attempt+1) rem
          ⟨⟨StatusConnecting, attempt⟩ :: ⟨StatusRetrying, attempt⟩ :: rest.reports,
            rest.msgs, rest.dials + 1, rest.err⟩

/-- `ConnectionHandler.StartWithDashboard(ctx, dash)`. -/
def StartWithDashboard (channelID : Nat) (sc : Script) (msgFuel : Nat) : RunOut :=
  startWithDashboardGo channelID sc msgFuel 1 5

/-- The report `startConnection` makes after the handler returns: nothing
when the error is `context.Canceled` ("don't mark as failed for
shutdown") or when the handler has not returned yet; otherwise a
`StatusFailed` report with the literal attempts value `1`. -/
def failPost (e : ExitErr) : List Rep :=
  match e with
  | .canceled => []
  | .running => []
  | _ => [⟨StatusFailed, 1⟩]

/-- `startConnection` from `cmd/kick-bot/main.go`, dashboard mode: report
`StatusConnecting 1` up front; on `GetToken` failure report
`StatusFailed 1` and stop; otherwise run `StartWithDashboard` and make
the post-exit report described by `failPost`. -/
def startConnection (channelID : Nat) (sc : Script) (msgFuel : Nat)
    (tokenOk : Bool) : RunOut :=
  if tokenOk then
    let run := StartWithDashboard channelID sc msgFuel
    ⟨⟨StatusConnecting, 1⟩ :: (run.reports ++ failPost run.err),
      run.msgs, run.dials, run.err⟩
  else ⟨[⟨StatusConnecting, 1⟩, ⟨StatusFailed, 1⟩], [], 0, .tokenFailed⟩

/-! ### Claim C9: keepalive message alternation -/

theorem messageLoop_msgs_get (channelID : Nat) (sc : Script) :
    ∀ (fuel counter n : Nat), n < (messageLoop channelID sc counter fuel).msgs.length →
      (messageLoop channelID sc counter fuel).msgs.get? n
        = some (mkMessage channelID (counter + n + 1)) := by
  intro fuel
  induction fuel with
  | zero => intro counter n h; simp [messageLoop] at h
  | succ fuel ih =>
      intro counter n h
      rw [messageLoop] at h ⊢
      by_cases hc : sc.cancelBeforeSend (counter+1) = true
      · simp [hc] at h
      · rw [Bool.not_eq_true] at hc
        by_cases hs : sc.sendOk (counter+1) = true
        · by_cases hk : sc.cancelInKeepalive (counter+1) = true
          · simp only [hc, hs, hk, Bool.false_eq_true, if_false, if_true] at h ⊢
            simp only [List.length_singleton, Nat.lt_one_iff] at h
            subst h
            simp
          · rw [Bool.not_eq_true] at hk
            simp only [hc, hs, hk, Bool.false_eq_true, if_false, if_true] at h ⊢
            cases n with
            | zero => simp
            | succ n =>
                simp only [List.length_cons, Nat.succ_lt_succ_iff] at h
                simp only [List.get?_cons_succ]
                rw [ih (counter+1) n h]
                have harg : counter + 1 + n + 1 = counter + (n + 1) + 1 := by omega
                rw [harg]
        · rw [Bool.not_eq_true] at hs
          simp only [hc, hs, Bool.false_eq_true, if_false] at h ⊢
          simp only [List.length_singleton, Nat.lt_one_iff] at h
          subst h
          simp

theorem messageLoopWithDashboard_msgs_get (channelID : Nat) (sc : Script) :
    ∀ (fuel counter n : Nat),
      n < (messageLoopWithDashboard channelID sc counter fuel).msgs.length →
      (messageLoopWithDashboard channelID sc counter fuel).msgs.get? n
        = some (mkMessage channelID (counter + n + 1)) := by
  intro fuel
  induction fuel with
  | zero => intro counter n h; simp [messageLoopWithDashboard] at h
  | succ fuel ih =>
      intro counter n h
      rw [messageLoopWithDashboard] at h ⊢
      by_cases hc : sc.cancelBeforeSend (counter+1) = true
      · simp [hc] at h
      · rw [Bool.not_eq_true] at hc
        by_cases hs : sc.sendOk (counter+1) = true
        · by_cases hk : sc.cancelInKeepalive (counter+1) = true
          · simp only [hc, hs, hk, Bool.false_eq_true, if_false, if_true] at h ⊢
            simp only [List.length_singleton, Nat.lt_one_iff] at h
            subst h
            simp
          · rw [Bool.not_eq_true] at hk
            simp only [hc, hs, hk, Bool.false_eq_true, if_false, if_true] at h ⊢
            cases n with
            | zero => simp
            | succ n =>
                simp only [List.length_cons, Nat.succ_lt_succ_iff] at h
                simp only [List.get?_cons_succ]
                rw [ih (counter+1) n h]
                have harg : counter + 1 + n + 1 = counter + (n + 1) + 1 := by omega
                rw [harg]
        · rw [Bool.not_eq_true] at hs
          simp only [hc, hs, Bool.false_eq_true, if_false] at h ⊢
          simp only [List.length_singleton, Nat.lt_one_iff] at h
          subst h
          simp

/-- Claim C9.  In both keepalive loops, counting iterations from 1, the
message of an odd iteration is the `channel_handshake` carrying the
channel identifier and the message of an even iteration is the `ping`;
the `n`-th (0-based) message sent belongs to iteration `n+1`. -/
theorem keepalive_alternation (channelID : Nat) (sc : Script) (fuel n : Nat)
    (h1 : n < (messageLoop channelID sc 0 fuel).msgs.length)
    (h2 : n < (messageLoopWithDashboard channelID sc 0 fuel).msgs.length) :
    (messageLoop channelID sc 0 fuel).msgs.get? n
      = some (if (n+1) % 2 = 1 then Msg.handshake channelID else Msg.ping)
    ∧ (messageLoopWithDashboard channelID sc 0 fuel).msgs.get? n
      = some (if (n+1) % 2 = 1 then Msg.handshake channelID else Msg.ping) := by
  have hmk : mkMessage channelID (0 + n + 1)
      = if (n+1) % 2 = 1 then Msg.handshake channelID else Msg.ping := by
    rw [mkMessage]
    rcases Nat.mod_two_eq_zero_or_one (n+1) with h | h <;>
      simp [Nat.zero_add, h]
  exact ⟨hmk ▸ messageLoop_msgs_get channelID sc fuel 0 n h1,
    hmk ▸ messageLoopWithDashboard_msgs_get channelID sc fuel 0 n h2⟩

/-- A concrete environment: every dial and send succeeds and cancellation
is never observed. -/
def allGoodScript : Script :=
  { dialOk := fun _ => true
    cancelInRetry := fun _ => false
    cancelBeforeSend := fun _ => false
    sendOk := fun _ => true
    cancelInKeepalive := fun _ => false }

theorem keepalive_alternation_witness :
    (0 < (messageLoop 7 allGoodScript 0 3).msgs.length
      ∧ (messageLoop 7 allGoodScript 0 3).msgs.get? 0 = some (Msg.handshake 7)
      ∧ (messageLoopWithDashboard 7 allGoodScript 0 3).msgs.get? 0 = some (Msg.handshake 7))
    ∧ (1 < (messageLoop 7 allGoodScript 0 3).msgs.length
      ∧ (messageLoop 7 allGoodScript 0 3).msgs.get? 1 = some Msg.ping
      ∧ (messageLoopWithDashboard 7 allGoodScript 0 3).msgs.get? 1 = some Msg.ping) := by
  have h0 := keepalive_alternation 7 allGoodScript 3 0 (by decide) (by decide)
  have h1 := keepalive_alternation 7 allGoodScript 3 1 (by decide) (by decide)
  exact ⟨⟨by decide, h0.1, h0.2⟩, ⟨by decide, h1.1, h1.2⟩⟩

/-! ### Claim C5: retry budget -/

/-- Claim C5.  A session whose every dial attempt fails and that never
observes cancellation makes exactly 5 dial attempts and exits with the
retry-exhaustion error — never a 6th attempt, never fewer.  In dashboard
mode the wrapper `startConnection` then makes a final `StatusFailed`
report, so the session's last reported status is `Failed`. -/
theorem retry_budget (channelID : Nat) (sc : Script) (msgFuel : Nat)
    (hdial : ∀ k, sc.dialOk k = false) (hcancel : ∀ k, sc.cancelInRetry k = false) :
    (Start channelID sc msgFuel).dials = 5
    ∧ (Start channelID sc msgFuel).err = ExitErr.exhausted
    ∧ (startConnection channelID sc msgFuel true).dials = 5
    ∧ (startConnection channelID sc msgFuel true).err = ExitErr.exhausted
    ∧ (startConnection channelID sc msgFuel true).reports.getLast?
        = some ⟨StatusFailed, 1⟩ := by
  simp [Start, startGo, startConnection, StartWithDashboard, startWithDashboardGo,
    failPost, hdial, hcancel]

/-- A concrete environment in which every dial fails and cancellation
never fires. -/
def allFailScript : Script :=
  { dialOk := fun _ => false
    cancelInRetry := fun _ => false
    cancelBeforeSend := fun _ => false
    sendOk := fun _ => true
    cancelInKeepalive := fun _ => false }

theorem retry_budget_witness :
    (Start 7 allFailScript 1).dials = 5
    ∧ (Start 7 allFailScript 1).err = ExitErr.exhausted
    ∧ (startConnection 7 allFailScript 1 true).dials = 5
    ∧ (startConnection 7 allFailScript 1 true).err = ExitErr.exhausted
    ∧ (startConnection 7 allFailScript 1 true).reports.getLast?
        = some ⟨StatusFailed, 1⟩ :=
  retry_budget 7 allFailScript 1 (fun _ => rfl) (fun _ => rfl)

/-! ### Claim C6: cancellation exits make no Failed report -/

theorem mlwd_reports_all_failed (channelID : Nat) (sc : Script) :
    ∀ (fuel counter : Nat) (r : Rep),
      r ∈ (messageLoopWithDashboard channelID sc counter fuel).reports →
      r = ⟨StatusFailed, 1⟩ := by
  intro fuel
  induction fuel with
  | zero => intro counter r h; simp [messageLoopWithDashboard] at h
  | succ fuel ih =>
      intro counter r h
      rw [messageLoopWithDashboard] at h
      by_cases hc : sc.cancelBeforeSend (counter+1) = true
      · simp [hc] at h
      · rw [Bool.not_eq_true] at hc
        by_cases hs : sc.sendOk (counter+1) = true
        · by_cases hk : sc.cancelInKeepalive (counter+1) = true
          · simp [hc, hs, hk] at h
          · rw [Bool.not_eq_true] at hk
            simp only [hc, hs, hk, Bool.false_eq_true, if_false, if_true] at h
            exact ih (counter+1) r h
        · rw [Bool.not_eq_true] at hs
          simp only [hc, hs, Bool.false_eq_true, if_false, List.mem_singleton] at h
          exact h

theorem mlwd_canceled_reports (channelID : Nat) (sc : Script) :
    ∀ (fuel counter : Nat),
      (messageLoopWithDashboard channelID sc counter fuel).err = ExitErr.canceled →
      (messageLoopWithDashboard channelID sc counter fuel).reports = [] := by
  intro fuel
  induction fuel with
  | zero => intro counter h; rfl
  | succ fuel ih =>
      intro counter h
      rw [messageLoopWithDashboard] at h ⊢
      by_cases hc : sc.cancelBeforeSend (counter+1) = true
      · simp [hc]
      · rw [Bool.not_eq_true] at hc
        by_cases hs : sc.sendOk (counter+1) = true
        · by_cases hk : sc.cancelInKeepalive (counter+1) = true
          · simp [hc, hs, hk]
          · rw [Bool.not_eq_true] at hk
            simp only [hc, hs, hk, Bool.false_eq_true, if_false, if_true] at h ⊢
            exact ih (counter+1) h
        · rw [Bool.not_eq_true] at hs
          simp [hc, hs] at h

theorem swdGo_canceled_no_failed (channelID : Nat) (sc : Script) (msgFuel : Nat) :
    ∀ (rem attempt : Nat),
      (startWithDashboardGo channelID sc msgFuel attempt rem).err = ExitErr.canceled →
      ∀ r ∈ (startWithDashboardGo channelID sc msgFuel attempt rem).reports,
        r.status ≠ StatusFailed := by
  intro rem
  induction rem with
  | zero => intro attempt h; simp [startWithDashboardGo] at h
  | succ rem ih =>
      intro attempt h r hr
      rw [startWithDashboardGo] at h hr
      by_cases hd : sc.dialOk attempt = true
      · simp only [hd, if_true] at h hr
        rw [mlwd_canceled_reports channelID sc msgFuel 0 h] at hr
        simp only [List.mem_cons, List.not_mem_nil, or_false] at hr
        rcases hr with rfl | rfl <;> simp
      · rw [Bool.not_eq_true] at hd
        by_cases hcr : sc.cancelInRetry attempt = true
        · simp only [hd, Bool.false_eq_true, if_false, hcr, if_true] at hr
          simp only [List.mem_cons, List.mem_singleton, List.not_mem_nil, or_false] at hr
          rcases hr with rfl | rfl <;> simp
        · rw [Bool.not_eq_true] at hcr
          simp only [hd, hcr, Bool.false_eq_true, if_false] at h hr
          simp only [List.mem_cons] at hr
          rcases hr with rfl | rfl | hr
          · simp
          · simp
          · exact ih (attempt+1) h r hr

/-- Claim C6.  When a session run exits because the cancellation signal
fired (the handler returned `context.Canceled`, whether observed during a
retry delay, a keepalive delay, or at the check before a send), none of
the reports made for that session has status `Failed`: the cancellation
exit paths report nothing, and `startConnection` skips its `Failed`
report when the error is `context.Canceled`. -/
theorem no_failed_report_on_cancel (channelID : Nat) (sc : Script) (msgFuel : Nat)
    (tokenOk : Bool)
    (h : (startConnection channelID sc msgFuel tokenOk).err = ExitErr.canceled) :
    ∀ r ∈ (startConnection channelID sc msgFuel tokenOk).reports,
      r.status ≠ StatusFailed := by
  cases tokenOk with
  | false => simp [startConnection] at h
  | true =>
      simp only [startConnection, if_true] at h ⊢
      intro r hr
      simp only [List.mem_cons, List.mem_append] at hr
      rcases hr with rfl | hr | hpost
      · simp
      · exact swdGo_canceled_no_failed channelID sc msgFuel 5 1 h r hr
      · rw [h] at hpost
        simp [failPost] at hpost

/-- The environment of the witness run: the first dial fails and the
retry delay observes the fired cancellation signal. -/
def cancelInRetryScript : Script :=
  { dialOk := fun _ => false
    cancelInRetry := fun _ => true
    cancelBeforeSend := fun _ => false
    sendOk := fun _ => true
    cancelInKeepalive := fun _ => false }

theorem no_failed_report_on_cancel_witness :
    (startConnection 7 cancelInRetryScript 1 true).err = ExitErr.canceled
    ∧ ∀ r ∈ (startConnection 7 cancelInRetryScript 1 true).reports,
        r.status ≠ StatusFailed :=
  ⟨by decide, no_failed_report_on_cancel 7 cancelInRetryScript 1 true (by decide)⟩

/-! ### Claim C4: monotonicity of reported attempts -/

/-- "No report carries a smaller attempts count than any earlier report":
the attempts values are pairwise non-decreasing along the report
sequence. -/
def reportsMonotone (l : List Rep) : Prop :=
  (l.map Rep.attempts).Pairwise (· ≤ ·)

/-- The environment of the counterexample run: the first dial fails, the
second succeeds, then the first keepalive send fails. -/
def dialTwiceThenSendFailScript : Script :=
  { dialOk := fun k => decide (k = 2)
    cancelInRetry := fun _ => false
    cancelBeforeSend := fun _ => false
    sendOk := fun _ => false
    cancelInKeepalive := fun _ => false }

/-- Claim C4, counterexample.  A session whose first dial fails, whose
second dial succeeds and whose first keepalive send then fails reports
the attempts sequence `1, 1, 1, 2, 2, 1, 1`: the two final `Failed`
reports carry the literal value `1`, smaller than the `2` reported at
`Connected`.  The claimed monotonicity is false. -/
theorem attempts_monotone_counterexample :
    (startConnection 0 dialTwiceThenSendFailScript 1 true).reports.map Rep.attempts
      = [1, 1, 1, 2, 2, 1, 1]
    ∧ ¬ reportsMonotone (startConnection 0 dialTwiceThenSendFailScript 1 true).reports := by
  constructor
  · decide
  · unfold reportsMonotone
    decide

theorem filter_cons_not_failed (s : ConnectionStatus) (a : Nat) (l : List Rep)
    (hs : s ≠ StatusFailed) :
    (Rep.mk s a :: l).filter (fun r => decide (r.status ≠ StatusFailed))
      = Rep.mk s a :: l.filter (fun r => decide (r.status ≠ StatusFailed)) := by
  rw [List.filter_cons]
  simp [hs]

theorem swdGo_attempts (channelID : Nat) (sc : Script) (msgFuel : Nat) :
    ∀ (rem attempt : Nat),
      (∀ r ∈ (startWithDashboardGo channelID sc msgFuel attempt rem).reports,
        r.status = StatusFailed → r.attempts = 1)
      ∧ (∀ r ∈ (startWithDashboardGo channelID sc msgFuel attempt rem).reports,
          r.status ≠ StatusFailed → attempt ≤ r.attempts)
      ∧ reportsMonotone
          ((startWithDashboardGo channelID sc msgFuel attempt rem).reports.filter
            (fun r => decide (r.status ≠ StatusFailed))) := by
  intro rem
  induction rem with
  | zero =>
      intro attempt
      refine ⟨?_, ?_, ?_⟩ <;> simp [startWithDashboardGo, reportsMonotone]
  | succ rem ih =>
      intro attempt
      rw [startWithDashboardGo]
      by_cases hd : sc.dialOk attempt = true
      · simp only [hd, if_true]
        have hlo := mlwd_reports_all_failed channelID sc msgFuel 0
        refine ⟨?_, ?_, ?_⟩
        · intro r hr hst
          simp only [List.mem_cons] at hr
          rcases hr with rfl | rfl | hr
          · simp at hst
          · simp at hst
          · rw [hlo r hr]
        · intro r hr hst
          simp only [List.mem_cons] at hr
          rcases hr with rfl | rfl | hr
          · exact le_refl attempt
          · exact le_refl attempt
          · rw [hlo r hr] at hst
            simp at hst
        · have hnil : ((messageLoopWithDashboard channelID sc 0 msgFuel).reports.filter
              (fun r => decide (r.status ≠ StatusFailed))) = [] := by
            rw [List.filter_eq_nil_iff]
            intro a ha
            rw [hlo a ha]
            simp
          rw [filter_cons_not_failed _ _ _ (by simp), filter_cons_not_failed _ _ _ (by simp),
            hnil]
          simp [reportsMonotone]
      · rw [Bool.not_eq_true] at hd
        by_cases hcr : sc.cancelInRetry attempt = true
        · simp only [hd, Bool.false_eq_true, if_false, hcr, if_true]
          refine ⟨?_, ?_, ?_⟩
          · intro r hr hst
            simp only [List.mem_cons, List.mem_singleton, List.not_mem_nil, or_false] at hr
            rcases hr with rfl | rfl <;> simp at hst
          · intro r hr _
            simp only [List.mem_cons, List.mem_singleton, List.not_mem_nil, or_false] at hr
            rcases hr with rfl | rfl <;> exact le_refl attempt
          · rw [show (⟨StatusConnecting, attempt⟩ :: [⟨StatusRetrying, attempt⟩] : List Rep)
                = [Rep.mk StatusConnecting attempt, Rep.mk StatusRetrying attempt] from rfl]
            rw [filter_cons_not_failed _ _ _ (by simp), filter_cons_not_failed _ _ _ (by simp)]
            simp [reportsMonotone]
        · rw [Bool.not_eq_true] at hcr
          simp only [hd, hcr, Bool.false_eq_true, if_false]
          obtain ⟨iha, ihb, ihc⟩ := ih (attempt+1)
          refine ⟨?_, ?_, ?_⟩
          · intro r hr hst
            simp only [List.mem_cons] at hr
            rcases hr with rfl | rfl | hr
            · simp at hst
            · simp at hst
            · exact iha r hr hst
          · intro r hr hst
            simp only [List.mem_cons] at hr
            rcases hr with rfl | rfl | hr
            · exact le_refl attempt
            · exact le_refl attempt
            · exact le_trans (Nat.le_succ attempt) (ihb r hr hst)
          · rw [filter_cons_not_failed _ _ _ (by simp), filter_cons_not_failed _ _ _ (by simp)]
            have hbound : ∀ a ∈ (((startWithDashboardGo channelID sc msgFuel (attempt+1)
                rem).reports.filter (fun r => decide (r.status ≠ StatusFailed))).map
                Rep.attempts), attempt ≤ a := by
              intro a ha
              rw [List.mem_map] at ha
              obtain ⟨r, hrmem, rfl⟩ := ha
              rw [List.mem_filter] at hrmem
              have hst : r.status ≠ StatusFailed := by
                have h2 := hrmem.2
                simpa using h2
              exact le_trans (Nat.le_succ attempt) (ihb r hrmem.1 hst)
            simp only [reportsMonotone] at ihc ⊢
            rw [List.map_cons, List.map_cons, List.pairwise_cons, List.pairwise_cons]
            refine ⟨?_, ?_, ihc⟩
            · intro b hb
              simp only [List.mem_cons] at hb
              rcases hb with rfl | hb
              · exact le_refl _
              · exact hbound b hb
            · intro b hb
              exact hbound b hb

/-- Claim C4, amended.  Along a session's report sequence the attempts
values are non-decreasing across all `Connecting`/`Retrying`/`Connected`
reports (the retry loop's reports), while every `Failed` report — the
keepalive send-failure report and `startConnection`'s post-exit report —
carries the literal attempts value `1`, which may be smaller than
attempts values reported earlier. -/
theorem attempts_monotone_amended (channelID : Nat) (sc : Script) (msgFuel : Nat)
    (tokenOk : Bool) :
    (∀ r ∈ (startConnection channelID sc msgFuel tokenOk).reports,
      r.status = StatusFailed → r.attempts = 1)
    ∧ reportsMonotone ((startConnection channelID sc msgFuel tokenOk).reports.filter
        (fun r => decide (r.status ≠ StatusFailed))) := by
  obtain ⟨ha, hb, hc⟩ := swdGo_attempts channelID sc msgFuel 5 1
  cases tokenOk with
  | false =>
      refine ⟨?_, ?_⟩
      · intro r hr _
        simp only [startConnection, Bool.false_eq_true, if_false, List.mem_cons,
          List.mem_singleton, List.not_mem_nil, or_false] at hr
        rcases hr with rfl | rfl
        · rfl
        · rfl
      · simp only [startConnection, Bool.false_eq_true, if_false]
        rw [filter_cons_not_failed _ _ _ (by simp)]
        simp [reportsMonotone]
  | true =>
      have hpost : ∀ r ∈ failPost (StartWithDashboard channelID sc msgFuel).err,
          r = ⟨StatusFailed, 1⟩ := by
        intro r hr
        cases he : (StartWithDashboard channelID sc msgFuel).err <;>
          rw [he] at hr <;> simp [failPost] at hr <;> exact hr
      refine ⟨?_, ?_⟩
      · intro r hr hst
        simp only [startConnection, if_true, List.mem_cons, List.mem_append] at hr
        rcases hr with rfl | hr | hr
        · simp at hst
        · exact ha r hr hst
        · rw [hpost r hr]
      · simp only [startConnection, if_true]
        have hpnil : (failPost (StartWithDashboard channelID sc msgFuel).err).filter
            (fun r => decide (r.status ≠ StatusFailed)) = [] := by
          rw [List.filter_eq_nil_iff]
          intro a hPa
          rw [hpost a hPa]
          simp
        rw [show (⟨StatusConnecting, 1⟩ :: ((StartWithDashboard channelID sc msgFuel).reports
              ++ failPost (StartWithDashboard channelID sc msgFuel).err) : List Rep)
            = Rep.mk StatusConnecting 1 :: ((StartWithDashboard channelID sc msgFuel).reports
              ++ failPost (StartWithDashboard channelID sc msgFuel).err) from rfl]
        rw [filter_cons_not_failed _ _ _ (by simp), List.filter_append, hpnil,
          List.append_nil]
        simp only [reportsMonotone] at hc ⊢
        rw [List.map_cons, List.pairwise_cons]
        refine ⟨?_, hc⟩
        intro b hb
        rw [List.mem_map] at hb
        obtain ⟨r, hrmem, rfl⟩ := hb
        rw [List.mem_filter] at hrmem
        have hst : r.status ≠ StatusFailed := by
          have h2 := hrmem.2
          simpa using h2
        have hr' : r ∈ (startWithDashboardGo channelID sc msgFuel 1 5).reports := hrmem.1
        exact hb r hr' hst

theorem attempts_monotone_amended_witness :
    (∀ r ∈ (startConnection 0 allGoodScript 1 true).reports,
        r.status = StatusFailed → r.attempts = 1)
    ∧ reportsMonotone ((startConnection 0 allGoodScript 1 true).reports.filter
        (fun r => decide (r.status ≠ StatusFailed))) :=
  attempts_monotone_amended 0 allGoodScript 1 true

/-! ## The ramp-up scheduler (`startConnectionsInBatches` in main.go)

The Go loop `for i := 0; i < totalViewers; i += batchSize` is modelled
with the batch ordinal `k` (so `i = k * batchSize`) and fuel (`total`
suffices for any positive batch size).  `cPre k` says whether the
cancellation check before starting batch `k` observes the fired signal,
`cWait k` whether the interruptible inter-batch wait after batch `k`
does.  The function returns the list of launched batches, each batch the
list of session indices whose goroutine it starts. -/

def schedGo (total bs : Nat) (cPre cWait : Nat → Bool) : Nat → Nat → List (List Nat)
  | _, 0 => []
  | k, fuel+1 =>
      if k * bs < total then
        if cPre k then []
        else
          let e := min (k * bs + bs) total
          let batch := List.range' (k * bs) (e - k * bs)
          if e < total then
            if cWait k then [batch]
            else batch :: schedGo total bs cPre cWait (k+1) fuel
          else [batch]
      else []

/-- `startConnectionsInBatches(ctx, wg, totalViewers, batchSize, ...)`. -/
def startConnectionsInBatches (total bs : Nat) (cPre cWait : Nat → Bool) :
    List (List Nat) :=
  schedGo total bs cPre cWait 0 total

/-- A cancellation signal that never fires. -/
def noCancel : Nat → Bool := fun _ => false

/-! ### Claim C8: batch boundaries -/

theorem schedGo_length (total bs : Nat) (hbs : 1 ≤ bs) :
    ∀ (fuel k : Nat), total ≤ (k + fuel) * bs →
      (schedGo total bs noCancel noCancel k fuel).length
        = (total - k * bs + bs - 1) / bs := by
  intro fuel
  induction fuel with
  | zero =>
      intro k hf
      rw [Nat.add_zero] at hf
      have hz : total - k * bs = 0 := Nat.sub_eq_zero_of_le hf
      rw [schedGo, hz]
      simp only [List.length_nil, Nat.zero_add]
      exact (Nat.div_eq_of_lt (by omega : bs - 1 < bs)).symm
  | succ fuel ih =>
      intro k hf
      rw [schedGo]
      by_cases hk : k * bs < total
      · simp only [hk, if_true, noCancel, Bool.false_eq_true, if_false]
        have hsucc : (k + 1 + fuel) * bs = (k + (fuel + 1)) * bs := by ring
        by_cases he : min (k * bs + bs) total < total
        · have hlt : k * bs + bs < total := by omega
          simp only [he, if_true, List.length_cons]
          rw [ih (k + 1) (hsucc ▸ hf)]
          have harith : (total - k * bs + bs - 1) / bs
              = (total - (k + 1) * bs + bs - 1) / bs + 1 := by
            have hd : total - (k + 1) * bs + bs - 1 = total - k * bs - 1 := by
              have : (k + 1) * bs = k * bs + bs := by ring
              omega
            rw [hd]
            have hnum : total - k * bs + bs - 1 = (total - k * bs - 1) + bs := by omega
            rw [hnum, Nat.add_div_right _ (by omega : 0 < bs)]
          omega
        · simp only [he, if_false, List.length_singleton]
          have hle : total ≤ k * bs + bs := by omega
          have : (total - k * bs + bs - 1) / bs = 1 := by
            refine Nat.div_eq_of_lt_le (by omega) (by omega)
          omega
      · simp only [hk, if_false, List.length_nil]
        have hz : total - k * bs = 0 := by omega
        rw [hz, Nat.zero_add]
        exact (Nat.div_eq_of_lt (by omega : bs - 1 < bs)).symm

theorem schedGo_get (total bs : Nat) :
    ∀ (fuel k j : Nat), total ≤ (k + fuel) * bs →
      (schedGo total bs noCancel noCancel k fuel).get? j
        = if (k + j) * bs < total then
            some (List.range' ((k + j) * bs) (min ((k + j) * bs + bs) total - (k + j) * bs))
          else none := by
  intro fuel
  induction fuel with
  | zero =>
      intro k j hf
      rw [Nat.add_zero] at hf
      have hge : ¬ (k + j) * bs < total := by
        have : k * bs ≤ (k + j) * bs := Nat.mul_le_mul_right bs (by omega)
        omega
      rw [schedGo]
      simp [hge]
  | succ fuel ih =>
      intro k j hf
      rw [schedGo]
      by_cases hk : k * bs < total
      · simp only [hk, if_true, noCancel, Bool.false_eq_true, if_false]
        by_cases he : min (k * bs + bs) total < total
        · simp only [he, if_true]
          cases j with
          | zero =>
              simp only [List.get?_cons_zero, Nat.add_zero, hk, if_true]
          | succ j =>
              simp only [List.get?_cons_succ]
              have hsucc : (k + 1 + fuel) * bs = (k + (fuel + 1)) * bs := by ring
              rw [ih (k + 1) j (hsucc ▸ hf)]
              have hidx : k + 1 + j = k + (j + 1) := by omega
              rw [hidx]
        · simp only [he, if_false]
          have hle : total ≤ k * bs + bs := by omega
          cases j with
          | zero =>
              simp only [List.get?_cons_zero, Nat.add_zero, hk, if_true]
          | succ j =>
              have hge : ¬ (k + (j + 1)) * bs < total := by
                have h1 : (k + 1) * bs ≤ (k + (j + 1)) * bs :=
                  Nat.mul_le_mul_right bs (by omega)
                have h2 : (k + 1) * bs = k * bs + bs := by ring
                omega
              simp [hge]
      · have hge : ¬ (k + j) * bs < total := by
          have : k * bs ≤ (k + j) * bs := Nat.mul_le_mul_right bs (by omega)
          omega
        simp [hk, hge]

/-- Claim C8.  With no cancellation, `1 ≤ total` and `1 ≤ bs`: the number
of batches is `(total + bs - 1) / bs`, which is the least `m` with
`total ≤ m * bs` (i.e. the ceiling of `total / bs`); batch `k` (0-based)
is launched exactly when `k * bs < total` and then contains exactly the
indices `[k * bs, min ((k+1) * bs, total))`; and `total = 7`, `bs = 3`
yields batch sizes `3, 3, 1`. -/
theorem batch_boundaries (total bs : Nat) (h1 : 1 ≤ total) (h2 : 1 ≤ bs) :
    (startConnectionsInBatches total bs noCancel noCancel).length
        = (total + bs - 1) / bs
    ∧ total ≤ (startConnectionsInBatches total bs noCancel noCancel).length * bs
    ∧ (∀ m, total ≤ m * bs →
        (startConnectionsInBatches total bs noCancel noCancel).length ≤ m)
    ∧ (∀ k, k * bs < total →
        (startConnectionsInBatches total bs noCancel noCancel).get? k
          = some (List.range' (k * bs) (min ((k + 1) * bs) total - k * bs)))
    ∧ (∀ k, ¬ k * bs < total →
        (startConnectionsInBatches total bs noCancel noCancel).get? k = none)
    ∧ (startConnectionsInBatches 7 3 noCancel noCancel).map List.length = [3, 3, 1] := by
  have hadq : total ≤ (0 + total) * bs := by
    rw [Nat.zero_add]
    exact Nat.le_mul_of_pos_right total (by omega : 0 < bs)
  have hlen : (startConnectionsInBatches total bs noCancel noCancel).length
      = (total + bs - 1) / bs := by
    rw [startConnectionsInBatches, schedGo_length total bs h2 total 0 hadq]
    norm_num
  have hget := fun (k : Nat) => schedGo_get total bs total 0 k hadq
  refine ⟨hlen, ?_, ?_, ?_, ?_, ?_⟩
  · rw [hlen]
    have hdm := Nat.div_add_mod (total + bs - 1) bs
    have hmlt : (total + bs - 1) % bs < bs := Nat.mod_lt _ (by omega)
    have hcomm : (total + bs - 1) / bs * bs = bs * ((total + bs - 1) / bs) :=
      Nat.mul_comm _ _
    omega
  · intro m hm
    rw [hlen]
    have hlt : total + bs - 1 < (m + 1) * bs := by
      have : (m + 1) * bs = m * bs + bs := by ring
      omega
    have := (Nat.div_lt_iff_lt_mul (by omega : 0 < bs)).mpr hlt
    omega
  · intro k hk
    have h := hget k
    rw [Nat.zero_add] at h
    rw [startConnectionsInBatches, h, if_pos hk]
    have : (k + 1) * bs = k * bs + bs := by ring
    rw [this]
  · intro k hk
    have h := hget k
    rw [Nat.zero_add] at h
    rw [startConnectionsInBatches, h, if_neg hk]
  · decide

theorem batch_boundaries_witness :
    (startConnectionsInBatches 7 3 noCancel noCancel).length = (7 + 3 - 1) / 3
    ∧ (startConnectionsInBatches 7 3 noCancel noCancel).get? 2
        = some (List.range' 6 (min 9 7 - 6))
    ∧ (startConnectionsInBatches 7 3 noCancel noCancel).map List.length = [3, 3, 1] := by
  obtain ⟨ha, _, _, hd, _, hf⟩ := batch_boundaries 7 3 (by decide) (by decide)
  exact ⟨ha, by simpa using hd 2 (by decide), hf⟩

/-! ### Claim C7: cancellation of the batched scheduler -/

theorem schedGo_cancel_at_wait (total bs kf : Nat) (cPre cWait : Nat → Bool)
    (hpre : ∀ j, j ≤ kf → cPre j = false)
    (hwait : ∀ j, j < kf → cWait j = false)
    (hfire : cWait kf = true) :
    ∀ (fuel k : Nat), k ≤ kf →
      schedGo total bs cPre cWait k fuel
        = (schedGo total bs noCancel noCancel k fuel).take (kf + 1 - k) := by
  intro fuel
  induction fuel with
  | zero => intro k _; simp [schedGo]
  | succ fuel ih =>
      intro k hk
      rw [schedGo, schedGo]
      by_cases hkb : k * bs < total
      · simp only [hkb, if_true, noCancel, Bool.false_eq_true, if_false]
        rw [hpre k hk]
        simp only [Bool.false_eq_true, if_false]
        by_cases he : min (k * bs + bs) total < total
        · simp only [he, if_true]
          by_cases hkk : k = kf
          · rw [hkk, hfire]
            simp only [if_true]
            have ht : kf + 1 - kf = 1 := by omega
            rw [ht, List.take_succ_cons, List.take_zero]
          · have hklt : k < kf := by omega
            rw [hwait k hklt]
            simp only [Bool.false_eq_true, if_false]
            rw [ih (k+1) (by omega)]
            have ht : kf + 1 - k = (kf + 1 - (k + 1)) + 1 := by omega
            rw [ht, List.take_succ_cons]
        · simp only [he, if_false]
          have ht : kf + 1 - k = (kf - k) + 1 := by omega
          rw [ht, List.take_succ_cons, List.take_nil]
      · simp [hkb]

theorem schedGo_cancel_at_pre (total bs kf : Nat) (cPre cWait : Nat → Bool)
    (hpre : ∀ j, j < kf → cPre j = false)
    (hwait : ∀ j, j < kf → cWait j = false)
    (hfire : cPre kf = true) :
    ∀ (fuel k : Nat), k ≤ kf →
      schedGo total bs cPre cWait k fuel
        = (schedGo total bs noCancel noCancel k fuel).take (kf - k) := by
  intro fuel
  induction fuel with
  | zero => intro k _; simp [schedGo]
  | succ fuel ih =>
      intro k hk
      rw [schedGo, schedGo]
      by_cases hkb : k * bs < total
      · simp only [hkb, if_true, noCancel, Bool.false_eq_true, if_false]
        by_cases hkk : k = kf
        · rw [hkk, hfire]
          simp only [if_true]
          have ht : kf - kf = 0 := by omega
          rw [ht, List.take_zero]
        · have hklt : k < kf := by omega
          rw [hpre k hklt]
          simp only [Bool.false_eq_true, if_false]
          by_cases he : min (k * bs + bs) total < total
          · simp only [he, if_true]
            rw [hwait k hklt]
            simp only [Bool.false_eq_true, if_false]
            rw [ih (k+1) (by omega)]
            have ht : kf - k = (kf - (k + 1)) + 1 := by omega
            rw [ht, List.take_succ_cons]
          · simp only [he, if_false]
            have ht : kf - k = (kf - k - 1) + 1 := by omega
            rw [ht, List.take_succ_cons, List.take_nil]
      · simp [hkb]

theorem mlwd_err_eventually_canceled (channelID : Nat) (sc : Script) (N : Nat)
    (hcb : ∀ m, N ≤ m → sc.cancelBeforeSend m = true) :
    ∀ (fuel counter : Nat), 1 ≤ fuel → N ≤ counter + fuel →
      (messageLoopWithDashboard channelID sc counter fuel).err ≠ ExitErr.running := by
  intro fuel
  induction fuel with
  | zero => intro counter h1 _; exact absurd h1 (by omega)
  | succ fuel ih =>
      intro counter _ hN
      rw [messageLoopWithDashboard]
      by_cases hm : N ≤ counter + 1
      · rw [hcb (counter + 1) hm]
        simp
      · by_cases hc : sc.cancelBeforeSend (counter + 1) = true
        · simp [hc]
        · rw [Bool.not_eq_true] at hc
          by_cases hs : sc.sendOk (counter + 1) = true
          · by_cases hk : sc.cancelInKeepalive (counter + 1) = true
            · simp [hc, hs, hk]
            · rw [Bool.not_eq_true] at hk
              simp only [hc, hs, hk, Bool.false_eq_true, if_false, if_true]
              exact ih (counter + 1) (by omega) (by omega)
          · rw [Bool.not_eq_true] at hs
            simp [hc, hs]

theorem swdGo_err_eventually_canceled (channelID : Nat) (sc : Script) (msgFuel N : Nat)
    (hcb : ∀ m, N ≤ m → sc.cancelBeforeSend m = true)
    (hmf : 1 ≤ msgFuel) (hNf : N ≤ msgFuel) :
    ∀ (rem attempt : Nat),
      (startWithDashboardGo channelID sc msgFuel attempt rem).err ≠ ExitErr.running := by
  intro rem
  induction rem with
  | zero => intro attempt; simp [startWithDashboardGo]
  | succ rem ih =>
      intro attempt
      rw [startWithDashboardGo]
      by_cases hd : sc.dialOk attempt = true
      · have hml := mlwd_err_eventually_canceled channelID sc N hcb msgFuel 0 hmf
          (by omega)
        simp only [hd, if_true]
        exact hml
      · rw [Bool.not_eq_true] at hd
        by_cases hcr : sc.cancelInRetry attempt = true
        · simp [hd, hcr]
        · rw [Bool.not_eq_true] at hcr
          simp only [hd, hcr, Bool.false_eq_true, if_false]
          exact ih (attempt + 1)

/-- Claim C7.  If the cancellation signal first fires at the pre-batch
check of batch `kf` (first conjunct) or during the inter-batch wait after
batch `kf` (second conjunct), the scheduler's launched batches are
exactly the first `kf` (resp. `kf + 1`) batches of the uncancelled
schedule — no further batch starts and no further session index is
launched, and the batches already launched are bit-for-bit those of the
uncancelled run, i.e. the abort does not touch them.  Third conjunct:
an already-launched session task, regardless of how far it has
progressed — in particular one several iterations deep in its keepalive
loop, with arbitrary dial/send/cancellation outcomes before the signal
fires — reaches a terminal (non-`running`) result once the fired signal
is observed by every pre-send checkpoint from some iteration `N` on and
the run is followed for at least `N` iterations (the join barrier is
`wg.Wait` in `main`, which resolves because every task exits). -/
theorem scheduler_cancellation (total bs kf : Nat) (cPre cWait : Nat → Bool) :
    ((∀ j, j < kf → cPre j = false) → (∀ j, j < kf → cWait j = false) →
      cPre kf = true →
      startConnectionsInBatches total bs cPre cWait
        = (startConnectionsInBatches total bs noCancel noCancel).take kf)
    ∧ ((∀ j, j ≤ kf → cPre j = false) → (∀ j, j < kf → cWait j = false) →
      cWait kf = true →
      startConnectionsInBatches total bs cPre cWait
        = (startConnectionsInBatches total bs noCancel noCancel).take (kf + 1))
    ∧ (∀ (sc : Script) (channelID msgFuel : Nat) (tokenOk : Bool) (N : Nat),
        (∀ m, N ≤ m → sc.cancelBeforeSend m = true) →
        1 ≤ msgFuel → N ≤ msgFuel →
        (startConnection channelID sc msgFuel tokenOk).err ≠ ExitErr.running) := by
  refine ⟨?_, ?_, ?_⟩
  · intro hpre hwait hfire
    have h := schedGo_cancel_at_pre total bs kf cPre cWait hpre hwait hfire total 0
      (by omega)
    simpa [startConnectionsInBatches] using h
  · intro hpre hwait hfire
    have h := schedGo_cancel_at_wait total bs kf cPre cWait hpre hwait hfire total 0
      (by omega)
    simpa [startConnectionsInBatches] using h
  · intro sc channelID msgFuel tokenOk N hcb hmf hNf
    cases tokenOk with
    | false => simp [startConnection]
    | true =>
        simp only [startConnection, if_true]
        exact swdGo_err_eventually_canceled channelID sc msgFuel N hcb hmf hNf 5 1

/-- A session environment in which the connection succeeds, the first two
keepalive iterations proceed undisturbed, and the cancellation signal is
observed by every checkpoint from iteration 3 on: a task already mid-run
in its keepalive loop when the signal fires. -/
def lateCancelScript : Script :=
  { dialOk := fun _ => true
    cancelInRetry := fun _ => false
    cancelBeforeSend := fun m => decide (3 ≤ m)
    sendOk := fun _ => true
    cancelInKeepalive := fun m => decide (3 ≤ m) }

theorem scheduler_cancellation_witness :
    (startConnectionsInBatches 7 3 (fun j => decide (2 ≤ j)) (fun j => decide (2 ≤ j))
      = (startConnectionsInBatches 7 3 noCancel noCancel).take 2)
    ∧ (startConnectionsInBatches 7 3 (fun j => decide (2 ≤ j)) (fun j => decide (1 ≤ j))
      = (startConnectionsInBatches 7 3 noCancel noCancel).take 2)
    ∧ (startConnection 9 lateCancelScript 5 true).err ≠ ExitErr.running :=
  ⟨(scheduler_cancellation 7 3 2 (fun j => decide (2 ≤ j)) (fun j => decide (2 ≤ j))).1
      (by decide) (by decide) (by decide),
    (scheduler_cancellation 7 3 1 (fun j => decide (2 ≤ j)) (fun j => decide (1 ≤ j))).2.1
      (by decide) (by decide) (by decide),
    (scheduler_cancellation 7 3 0 noCancel noCancel).2.2 lateCancelScript 9 5 true 3
      (fun m hm => decide_eq_true hm) (by decide) (by decide)⟩

/-! ## `ExtractChannelName` (Go package `kick`) -/

/-- Go's `strings.Split(s, sep)` for a single-character separator:
split around every occurrence of the separator; always returns at least
one (possibly empty) part. -/
def splitOnChar (c : Char) : List Char → List (List Char)
  | [] => [[]]
  | x :: xs =>
      if x = c then [] :: splitOnChar c xs
      else
        match splitOnChar c xs with
        | [] => [[x]]
        | h :: t => (x :: h) :: t

/-- `ExtractChannelName`: if the input contains `'/'`, split on `'/'` and
return the last part (`parts[len(parts)-1]`); otherwise return the input
unchanged. -/
def ExtractChannelName (input : List Char) : List Char :=
  if '/' ∈ input then (splitOnChar '/' input).getLastD []
  else input

theorem splitOnChar_ne_nil (c : Char) : ∀ l, splitOnChar c l ≠ [] := by
  intro l
  induction l with
  | nil => simp [splitOnChar]
  | cons x xs ih =>
      rw [splitOnChar]
      by_cases hx : x = c
      · simp [hx]
      · simp only [hx, if_false]
        cases hsp : splitOnChar c xs with
        | nil => simp
        | cons h t => simp

theorem splitOnChar_not_mem (c : Char) : ∀ l, c ∉ l → splitOnChar c l = [l] := by
  intro l
  induction l with
  | nil => intro _; rfl
  | cons x xs ih =>
      intro hmem
      have hx : ¬ x = c := fun h => hmem (h ▸ List.mem_cons_self x xs)
      have hxs : c ∉ xs := fun h => hmem (List.mem_cons_of_mem x h)
      rw [splitOnChar]
      simp only [hx, if_false]
      rw [ih hxs]

theorem splitOnChar_length_two (c : Char) : ∀ l, c ∈ l → 2 ≤ (splitOnChar c l).length := by
  intro l
  induction l with
  | nil => intro h; cases h
  | cons x xs ih =>
      intro hmem
      rw [splitOnChar]
      by_cases hx : x = c
      · simp only [hx, if_true, List.length_cons]
        have := List.length_pos.mpr (splitOnChar_ne_nil c xs)
        omega
      · have hcx : c ∈ xs := by
          rcases List.mem_cons.mp hmem with rfl | h
          · exact absurd rfl hx
          · exact h
        simp only [hx, if_false]
        cases hsp : splitOnChar c xs with
        | nil => exact absurd hsp (splitOnChar_ne_nil c xs)
        | cons h t =>
            have h2 := ih hcx
            rw [hsp] at h2
            simp only [List.length_cons] at h2 ⊢
            omega

theorem getLastD_default_irrel (l : List (List Char)) (d₁ d₂ : List Char)
    (h : l ≠ []) : l.getLastD d₁ = l.getLastD d₂ := by
  rw [List.getLastD_eq_getLast?, List.getLastD_eq_getLast?]
  cases hl : l.getLast? with
  | none => exact absurd (List.getLast?_eq_none_iff.mp hl) h
  | some v => rfl

theorem splitOnChar_getLast_append (c : Char) :
    ∀ (l₁ l₂ : List Char), c ∉ l₂ →
      (splitOnChar c (l₁ ++ c :: l₂)).getLastD [] = l₂ := by
  intro l₁
  induction l₁ with
  | nil =>
      intro l₂ h2
      rw [List.nil_append, splitOnChar]
      simp only [if_pos rfl]
      rw [splitOnChar_not_mem c l₂ h2]
      rfl
  | cons x l₁ ih =>
      intro l₂ h2
      rw [List.cons_append, splitOnChar]
      by_cases hx : x = c
      · simp only [hx, if_true]
        have hne := splitOnChar_ne_nil c (l₁ ++ c :: l₂)
        rw [List.getLastD_cons]
        rw [getLastD_default_irrel _ _ [] hne]
        exact ih l₂ h2
      · simp only [hx, if_false]
        have hne := splitOnChar_ne_nil c (l₁ ++ c :: l₂)
        have hmem : c ∈ l₁ ++ c :: l₂ :=
          List.mem_append_right l₁ (List.mem_cons_self c l₂)
        have hlen := splitOnChar_length_two c (l₁ ++ c :: l₂) hmem
        cases hsp : splitOnChar c (l₁ ++ c :: l₂) with
        | nil => exact absurd hsp hne
        | cons h t =>
            cases t with
            | nil =>
                rw [hsp] at hlen
                simp at hlen
            | cons u t' =>
                have hih := ih l₂ h2
                rw [hsp, List.getLastD_cons] at hih
                rw [List.getLastD_cons]
                rw [getLastD_default_irrel _ _ h (by simp)] at hih
                rw [getLastD_default_irrel _ _ h (by simp)]
                exact hih

/-- Claim C10.  `ExtractChannelName` returns its input unchanged when the
input contains no `'/'`; otherwise it returns the substring after the
last `'/'`; in particular an input ending in `'/'` yields the empty
string. -/
theorem extractChannelName_spec :
    (∀ l : List Char, '/' ∉ l → ExtractChannelName l = l)
    ∧ (∀ l₁ l₂ : List Char, '/' ∉ l₂ → ExtractChannelName (l₁ ++ '/' :: l₂) = l₂)
    ∧ (∀ l : List Char, ExtractChannelName (l ++ ['/']) = []) := by
  refine ⟨?_, ?_, ?_⟩
  · intro l h
    rw [ExtractChannelName, if_neg h]
  · intro l₁ l₂ h2
    have hm : '/' ∈ l₁ ++ '/' :: l₂ :=
      List.mem_append_right l₁ (List.mem_cons_self _ _)
    rw [ExtractChannelName, if_pos hm]
    exact splitOnChar_getLast_append _ l₁ l₂ h2
  · intro l
    have hm : '/' ∈ l ++ ['/'] :=
      List.mem_append_right l (List.mem_cons_self _ _)
    rw [ExtractChannelName, if_pos hm]
    exact splitOnChar_getLast_append _ l [] (by simp)

theorem extractChannelName_witness :
    ExtractChannelName ['x', 'y', 'z'] = ['x', 'y', 'z']
    ∧ ExtractChannelName ['k', '/', 'a', 'b'] = ['a', 'b']
    ∧ ExtractChannelName ['k', '/', 'a', '/'] = [] :=
  ⟨extractChannelName_spec.1 ['x', 'y', 'z'] (by decide),
    extractChannelName_spec.2.1 ['k'] ['a', 'b'] (by decide),
    extractChannelName_spec.2.2 ['k', '/', 'a']⟩

end KickBot
